import Mathlib

/-
Verification of the timing-capture/encode pipeline of IRrecvDumpV2-yamato.cpp.

The embedding models the pure computation and the text-emission behaviour of
the source file.  Serial output is modelled as a list of emitted strings (one
list element per Serial.print / Serial.printf / serialPrintUint64 call); the
full console text is the concatenation of the list.  The cooperative `yield()`
call inside dumpRaw is modelled as an explicit event in an event list.
Machine integers are Nat with explicit `% 2^w` where C integer conversion can
wrap: `uint32_t usecs = rawbuf[i] * RAWTICK` is `(tick * unit) % 2^32` and the
`uint16_t length` accumulator of getCookedLength wraps `% 2^16`.  The library
constant RAWTICK (the tick-to-microsecond unit, a uint16 configuration value)
is passed as an explicit parameter `unit`, following the spec's
`toMicroseconds(tick, unit)` contract.
-/

/-- Protocol identifier enum, as consumed by `encoding` (decode_type values
that the switch statement in the source names). -/
inductive DecodeType where
  | UNKNOWN
  | NEC
  | NEC_LIKE
  | SONY
  | RC5
  | RC5X
  | RC6
  | RCMM
  | DISH
  | SHARP
  | JVC
  | SANYO
  | SANYO_LC7461
  | MITSUBISHI
  | SAMSUNG
  | LG
  | WHYNTER
  | AIWA_RC_T501
  | PANASONIC
  | DENON
  | COOLIX
  | YAMATO
deriving DecidableEq

/-- The `decode_results` structure (the fields the dumped code reads).
`rawbuf` is the tick buffer (uint16 entries), `rawlen` its used length
(uint16), `isRepeat` models the C field `repeat` (a Lean keyword). -/
structure DecodeResults where
  rawbuf : Nat → Nat
  rawlen : Nat
  overflow : Bool
  value : Nat
  bits : Nat
  decode_type : DecodeType
  address : Nat
  command : Nat
  isRepeat : Bool

/-- Configured capture buffer size (source line 26). -/
def CAPTURE_BUFFER_SIZE : Nat := 1024

/-- Decimal rendering of a number, as printed by `Serial.print(n, DEC)` and
`printf("%d", n)`. -/
def decStr (n : Nat) : String := Nat.repr n

/-- Hexadecimal rendering without padding, as printed by
`Serial.print(n, HEX)`. -/
def hexStr (n : Nat) : String := (Nat.toDigits 16 n).asString

/-- Modelled from the spec: `serialPrintUint64` (IRutils library, not part of
src/) renders a 64-bit value; the source only calls it with base 16 (`16` and
`HEX`), for which the spec requires 16 zero-padded hexadecimal digits (spec
4.6), with no `0x` prefix (Scenario C of spec 8 shows the `0x` being printed
by the caller). -/
def serialPrintUint64 (value : Nat) : String :=
  let ds := Nat.toDigits 16 (value % 2 ^ 64)
  ⟨List.replicate (16 - ds.length) '0' ++ ds⟩

/-- Display name of a protocol, as printed by the switch in `encoding`
(source lines 53-79); the `default:` arm shares the UNKNOWN case. -/
def protocolName : DecodeType → String
  | .UNKNOWN => "UNKNOWN"
  | .NEC => "NEC"
  | .NEC_LIKE => "NEC (non-strict)"
  | .SONY => "SONY"
  | .RC5 => "RC5"
  | .RC5X => "RC5X"
  | .RC6 => "RC6"
  | .RCMM => "RCMM"
  | .DISH => "DISH"
  | .SHARP => "SHARP"
  | .JVC => "JVC"
  | .SANYO => "SANYO"
  | .SANYO_LC7461 => "SANYO_LC7461"
  | .MITSUBISHI => "MITSUBISHI"
  | .SAMSUNG => "SAMSUNG"
  | .LG => "LG"
  | .WHYNTER => "WHYNTER"
  | .AIWA_RC_T501 => "AIWA_RC_T501"
  | .PANASONIC => "PANASONIC"
  | .DENON => "DENON"
  | .COOLIX => "COOLIX"
  | .YAMATO => "YAMATO"

/-- Output of `encoding(results)` (source lines 53-81): the protocol name,
then " (Repeat)" when the repeat flag is set. -/
def encodingEvents (r : DecodeResults) : List String :=
  [protocolName r.decode_type] ++ (if r.isRepeat then [" (Repeat)"] else [])

/-- Tick-to-microsecond conversion `rawbuf[i] * RAWTICK` (uint16 operands,
product computed via integer promotion and stored into a uint32). -/
def toMicroseconds (tick unit : Nat) : Nat := (tick * unit) % 2 ^ 32

/-- getCookedLength (source lines 105-113): starts from `rawlen - 1` and, for
each `i` in `[0, rawlen-2]`, adds `(usecs / UINT16_MAX) * 2` into a uint16
accumulator. -/
def getCookedLength (unit : Nat) (r : DecodeResults) : Nat :=
  (List.range (r.rawlen - 1)).foldl
    (fun length i =>
      (length + (toMicroseconds (r.rawbuf i) unit / 65535) * 2) % 2 ^ 16)
    ((r.rawlen - 1) % 2 ^ 16)

/-- Value sequence produced for one duration by the chunking loop of dumpCode
(source lines 151-155): while `usecs > UINT16_MAX`, print the pair
`65535, 0` and subtract `UINT16_MAX`; finally print the remainder. -/
def emit (d : Nat) : List Nat :=
  if h : 65535 < d then 65535 :: 0 :: emit (d - 65535) else [d]
termination_by d
decreasing_by omega

/-- Text emitted for one duration by the chunking loop of dumpCode: each loop
iteration is one `printf("%d, 0", UINT16_MAX)` call, the remainder one
`Serial.print(usecs, DEC)` call. -/
def durEvents (d : Nat) : List String :=
  if h : 65535 < d then "65535, 0" :: durEvents (d - 65535) else [decStr d]
termination_by d
decreasing_by omega

/-- All uint16 values printed inside the braces by dumpCode's data loop
(source lines 149-159): the chunked durations of `rawbuf[1..rawlen-1]`. -/
def dumpCodeValues (unit : Nat) (r : DecodeResults) : List Nat :=
  (List.range' 1 (r.rawlen - 1)).flatMap
    (fun i => emit (toMicroseconds (r.rawbuf i) unit))

/-- Text emitted by dumpCode for the loop body at index `i` (source lines
149-159): the chunked duration, then `", "` unless `i` is the last index,
then an extra space when `i` is even. -/
def dumpCodeEntry (unit : Nat) (r : DecodeResults) (i : Nat) : List String :=
  durEvents (toMicroseconds (r.rawbuf i) unit)
    ++ (if i < r.rawlen - 1 then [", "] else [])
    ++ (if i % 2 = 0 then [" "] else [])

/-- Trailer of dumpCode (source lines 174-191): for a known protocol, the
address/command declarations when either is nonzero, then always the data
declaration. -/
def dumpCodeTrailer (r : DecodeResults) : List String :=
  if r.decode_type = DecodeType.UNKNOWN then []
  else
    (if 0 < r.address ∨ 0 < r.command then
      ["uint32_t address = 0x", hexStr r.address, ";\n",
       "uint32_t command = 0x", hexStr r.command, ";\n"]
    else [])
    ++ ["uint64_t data = 0x", serialPrintUint64 r.value, ";\n"]

/-- Full output of dumpCode (source lines 141-192) as the list of emitted
strings, in emission order. -/
def dumpCodeEvents (unit : Nat) (r : DecodeResults) : List String :=
  ["uint16_t ", "rawData[", decStr (getCookedLength unit r), "] = \x7b"]
    ++ (List.range' 1 (r.rawlen - 1)).flatMap (dumpCodeEntry unit r)
    ++ ["\x7d;", "  // "] ++ encodingEvents r
    ++ [" ", serialPrintUint64 r.value, "\n"]
    ++ dumpCodeTrailer r

/-- Full output of dumpCode as one string. -/
def dumpCodeStr (unit : Nat) (r : DecodeResults) : String :=
  String.join (dumpCodeEvents unit r)

/-- Console events of dumpRaw: either emitted text or the cooperative
`yield()` call. -/
inductive Ev where
  | out (s : String)
  | yield
deriving DecidableEq

/-- Rendering of `printf("%6d", n)`: the decimal digits right-justified to at
least six characters with spaces. -/
def fmt6 (n : Nat) : String :=
  ⟨List.replicate (6 - (Nat.repr n).data.length) ' ' ++ (Nat.repr n).data⟩

/-- Events of dumpRaw's loop body at index `i` (source lines 123-135): a
yield at every 100th index, the mark/space marker, the six-wide duration, a
comma separator except at the last index, and a newline after every 8th
entry. -/
def dumpRawEntry (unit : Nat) (r : DecodeResults) (i : Nat) : List Ev :=
  (if i % 100 = 0 then [Ev.yield] else [])
    ++ [Ev.out (if i % 2 = 0 then "-" else "   +")]
    ++ [Ev.out (fmt6 (toMicroseconds (r.rawbuf i) unit))]
    ++ (if i < r.rawlen - 1 then [Ev.out ", "] else [])
    ++ (if i % 8 = 0 then [Ev.out "\n"] else [])

/-- Full event list of dumpRaw (source lines 117-137): header, the loop over
indices `[1, rawlen-1]`, and the final newline. -/
def dumpRawEvents (unit : Nat) (r : DecodeResults) : List Ev :=
  [Ev.out "Timing[", Ev.out (decStr (r.rawlen - 1)), Ev.out "]: \n"]
    ++ (List.range' 1 (r.rawlen - 1)).flatMap (dumpRawEntry unit r)
    ++ [Ev.out "\n"]

/-- Text carried by one dumpRaw event (a yield emits nothing). -/
def evString : Ev → String
  | .out s => s
  | .yield => ""

/-- Full output of dumpRaw as one string. -/
def dumpRawStr (unit : Nat) (r : DecodeResults) : String :=
  String.join ((dumpRawEvents unit r).map evString)

/-- Overflow warning emitted by dumpInfo (source lines 86-90), naming the
configured buffer capacity. -/
def warningStr : String :=
  "WARNING: IR code too big for buffer (>= " ++ decStr CAPTURE_BUFFER_SIZE
    ++ "). These results shouldn\x27t be trusted until this is resolved. "
    ++ "Edit & increase CAPTURE_BUFFER_SIZE.\n"

/-- Output of dumpInfo (source lines 85-103) as the list of emitted strings:
the warning when the overflow flag is set, then the encoding line and the
code/bits line. -/
def dumpInfoEvents (r : DecodeResults) : List String :=
  (if r.overflow then [warningStr] else [])
    ++ ["Encoding  : "] ++ encodingEvents r ++ ["\n"]
    ++ ["Code      : ", serialPrintUint64 r.value, " (", decStr r.bits,
        " bits)\n"]

/-- The capture-processing pipeline of `loop` (source lines 207-213, the
block guarded there by `#if 0`/`#if 1`): dumpInfo, then dumpRaw, then
dumpCode, then a blank line. -/
def dumpPipelineEvents (unit : Nat) (r : DecodeResults) : List String :=
  dumpInfoEvents r ++ (dumpRawEvents unit r).map evString
    ++ dumpCodeEvents unit r ++ ["\n"]

/-- Characters that a base-16-or-smaller digit rendering can produce. -/
def hexChars : List Char := "0123456789abcdef".data

/-- Characters that appear in the chunk text of dumpCode's inner loop. -/
def chunkChars : List Char := hexChars ++ [',', ' ']

lemma digitChar_mem_hexChars : ∀ m < 16, Nat.digitChar m ∈ hexChars := by decide

lemma toDigitsCore_chars (b : Nat) (hb1 : 0 < b) (hb2 : b ≤ 16) (fuel : Nat) :
    ∀ (n : Nat) (acc : List Char), (∀ c ∈ acc, c ∈ hexChars) →
      ∀ c ∈ Nat.toDigitsCore b fuel n acc, c ∈ hexChars := by
  induction fuel with
  | zero =>
    intro n acc hacc c hc
    simp only [Nat.toDigitsCore] at hc
    exact hacc c hc
  | succ fuel ih =>
    intro n acc hacc c hc
    simp only [Nat.toDigitsCore] at hc
    have hd : Nat.digitChar (n % b) ∈ hexChars :=
      digitChar_mem_hexChars _ (lt_of_lt_of_le (Nat.mod_lt n hb1) hb2)
    by_cases h0 : n / b = 0
    · rw [if_pos h0] at hc
      rcases List.mem_cons.mp hc with h | h
      · exact h ▸ hd
      · exact hacc c h
    · rw [if_neg h0] at hc
      exact ih (n / b) _
        (fun x hx => (List.mem_cons.mp hx).elim (fun he => he ▸ hd) (hacc x)) c hc

lemma decStr_chars (n : Nat) : ∀ c ∈ (decStr n).data, c ∈ hexChars := by
  intro c hc
  simp only [decStr, Nat.repr, Nat.toDigits, List.asString] at hc
  exact toDigitsCore_chars 10 (by omega) (by omega) _ n [] (by simp) c hc

lemma hexStr_chars (n : Nat) : ∀ c ∈ (hexStr n).data, c ∈ hexChars := by
  intro c hc
  simp only [hexStr, Nat.toDigits, List.asString] at hc
  exact toDigitsCore_chars 16 (by omega) (by omega) _ n [] (by simp) c hc

lemma serialPrintUint64_chars (v : Nat) :
    ∀ c ∈ (serialPrintUint64 v).data, c ∈ hexChars := by
  intro c hc
  simp only [serialPrintUint64, Nat.toDigits] at hc
  rcases List.mem_append.mp hc with h | h
  · rw [List.eq_of_mem_replicate h]; decide
  · exact toDigitsCore_chars 16 (by omega) (by omega) _ _ [] (by simp) c h

lemma fmt6_chars (n : Nat) : ∀ c ∈ (fmt6 n).data, c = ' ' ∨ c ∈ hexChars := by
  intro c hc
  simp only [fmt6] at hc
  rcases List.mem_append.mp hc with h | h
  · exact Or.inl (List.eq_of_mem_replicate h)
  · exact Or.inr (decStr_chars n c h)

lemma ne_of_chars {s t : String} {L : List Char} (hs : ∀ c ∈ s.data, c ∈ L)
    {c : Char} (hct : c ∈ t.data) (hcL : c ∉ L) : s ≠ t := by
  intro h
  subst h
  exact hcL (hs c hct)

lemma emit_eq (d : Nat) :
    emit d = if 65535 < d then 65535 :: 0 :: emit (d - 65535) else [d] := by
  rw [emit]
  split <;> simp [*]

lemma durEvents_eq (d : Nat) :
    durEvents d =
      if 65535 < d then "65535, 0" :: durEvents (d - 65535) else [decStr d] := by
  rw [durEvents]
  split <;> simp [*]

lemma emit_sum (d : Nat) : (emit d).sum = d := by
  induction d using Nat.strong_induction_on with
  | _ d ih =>
    rw [emit_eq]
    split
    · rename_i h
      rw [List.sum_cons, List.sum_cons, ih (d - 65535) (by omega)]
      omega
    · simp

lemma emit_le (d : Nat) : ∀ v ∈ emit d, v ≤ 65535 := by
  induction d using Nat.strong_induction_on with
  | _ d ih =>
    rw [emit_eq]
    split
    · rename_i h
      intro v hv
      rcases List.mem_cons.mp hv with h1 | hv
      · omega
      rcases List.mem_cons.mp hv with h1 | hv
      · omega
      · exact ih (d - 65535) (by omega) v hv
    · intro v hv
      rcases List.mem_cons.mp hv with h1 | hv
      · omega
      · simp at hv

lemma emit_length (d : Nat) : (emit d).length = 2 * ((d - 1) / 65535) + 1 := by
  induction d using Nat.strong_induction_on with
  | _ d ih =>
    rw [emit_eq]
    split
    · rename_i h
      rw [List.length_cons, List.length_cons, ih (d - 65535) (by omega)]
      omega
    · rename_i h
      rw [List.length_singleton]
      omega

lemma emit_ne_nil (d : Nat) : emit d ≠ [] := by
  rw [emit_eq]
  split <;> simp

lemma emit_getLast_zero (d : Nat) : (emit d).getLast? = some 0 ↔ d = 0 := by
  induction d using Nat.strong_induction_on with
  | _ d ih =>
    rw [emit_eq]
    split
    · rename_i h
      obtain ⟨x, xs, hx⟩ := List.exists_cons_of_ne_nil (emit_ne_nil (d - 65535))
      rw [hx, List.getLast?_cons_cons, List.getLast?_cons_cons, ← hx,
        ih (d - 65535) (by omega)]
      omega
    · rename_i h
      simp

/-- C2: for every duration `d`, summing the sequence emitted by the chunking
loop reconstructs `d` exactly; and the final remainder is an explicit `0`
exactly when `d = 0` (for positive `d`, including exact multiples of
`maxValue+1`, the remainder is positive, since the loop subtracts
`maxValue = 65535`, not `maxValue+1`). -/
theorem emit_roundtrip (d : Nat) :
    (emit d).sum = d ∧ ((emit d).getLast? = some 0 ↔ d = 0) :=
  ⟨emit_sum d, emit_getLast_zero d⟩

/-- C2 counterexample: at `d = 65536`, an exact multiple of `maxValue+1`, the
emitted sequence is `[65535, 0, 1]`: the remainder is `1`, not an explicit
`0` (the sum nevertheless reconstructs 65536). -/
theorem emit_multiple_of_65536_remainder_not_zero :
    emit 65536 = [65535, 0, 1] ∧ 65536 % 65536 = 0 ∧
      (emit 65536).getLast? = some 1 ∧ (1 : Nat) ≠ 0 := by
  have h2 : emit 1 = [1] := by rw [emit_eq]; norm_num
  have h1 : emit 65536 = [65535, 0, 1] := by
    rw [emit_eq, if_pos (by norm_num)]
    norm_num [h2]
  exact ⟨h1, by norm_num, by rw [h1]; rfl, by norm_num⟩

/-- C3: a duration of at most 65535 is emitted as the single value `d`; a
duration in `(65535, 131070]` is emitted as exactly `[65535, 0, d - 65535]`. -/
theorem emit_single_and_pair (d : Nat) :
    (d ≤ 65535 → emit d = [d]) ∧
      (65535 < d → d ≤ 131070 → emit d = [65535, 0, d - 65535]) := by
  constructor
  · intro h
    rw [emit_eq, if_neg (by omega)]
  · intro h1 h2
    rw [emit_eq, if_pos h1, emit_eq, if_neg (by omega)]

/-- C3 witness at d = 100 and d = 70000. -/
theorem emit_single_and_pair_witness :
    ((100 : Nat) ≤ 65535 ∧ emit 100 = [100]) ∧
      (65535 < (70000 : Nat) ∧ (70000 : Nat) ≤ 131070 ∧
        emit 70000 = [65535, 0, 70000 - 65535]) :=
  ⟨⟨by norm_num, (emit_single_and_pair 100).1 (by norm_num)⟩,
   ⟨by norm_num, by norm_num,
    (emit_single_and_pair 70000).2 (by norm_num) (by norm_num)⟩⟩

/-- C10: the chunking loop terminates on every duration, emitting exactly
`2 * floor((d-1)/65535) + 1` values, and every emitted value fits in 16 bits
(is at most 65535), so all of them are representable in the declared
`uint16_t` array. -/
theorem emit_fits_uint16 (d : Nat) :
    (∀ v ∈ emit d, v ≤ 65535) ∧ (emit d).length = 2 * ((d - 1) / 65535) + 1 :=
  ⟨emit_le d, emit_length d⟩

/-- C8: the tick-to-microsecond multiplication is performed in at least
32-bit precision: for every uint16 tick and every uint16 unit the stored
uint32 duration equals the exact mathematical product, with no truncation
modulo 2^16. -/
theorem toMicroseconds_exact (tick unit : Nat) (h1 : tick ≤ 65535)
    (h2 : unit ≤ 65535) : toMicroseconds tick unit = tick * unit := by
  have h : tick * unit < 2 ^ 32 := by
    have := Nat.mul_le_mul h1 h2
    omega
  simpa [toMicroseconds] using Nat.mod_eq_of_lt h

/-- C8 witness: tick 65535 with unit 2 (the library RAWTICK value) gives
131070, a value that exceeds 16 bits and is preserved exactly. -/
theorem toMicroseconds_exact_witness :
    (65535 : Nat) ≤ 65535 ∧ (2 : Nat) ≤ 65535 ∧
      toMicroseconds 65535 2 = 65535 * 2 :=
  ⟨by norm_num, by norm_num,
   toMicroseconds_exact 65535 2 (by norm_num) (by norm_num)⟩

/-- Capture exhibiting the cooked-length mismatch: ticks `[40000, 100]`,
rawlen 2, no decode. -/
def mismatchCapture : DecodeResults :=
  { rawbuf := fun i => [40000, 100].getD i 0, rawlen := 2,
    overflow := false, value := 0, bits := 0,
    decode_type := DecodeType.UNKNOWN, address := 0, command := 0,
    isRepeat := false }

/-- C1: getCookedLength sums its extra-slot counts over `rawbuf[0..rawlen-2]`
while dumpCode emits values for `rawbuf[1..rawlen-1]`: with unit (RAWTICK) 2
and ticks `[40000, 100]`, the declared size counts two filler slots for the
duration 80000 of `ticks[0]` (which dumpCode never emits) and returns 3,
while dumpCode emits exactly one value (200, from `ticks[1]`) inside the
braces. -/
theorem getCookedLength_mismatch :
    getCookedLength 2 mismatchCapture = 3 ∧
      (dumpCodeValues 2 mismatchCapture).length = 1 := by
  constructor
  · rfl
  · rw [show dumpCodeValues 2 mismatchCapture = emit 200 ++ [] from rfl,
      List.append_nil, emit_eq, if_neg (by norm_num)]
    rfl

/-- C7: when the overflow flag is set, the pipeline's output is exactly the
buffer-capacity warning line followed by the output of the same pipeline on
the same capture with the flag cleared: the warning precedes both the
diagnostic dump and the source literal, and both still run to completion
over the (truncated) data rather than aborting. -/
theorem overflow_warning_first (unit : Nat) (r : DecodeResults)
    (h : r.overflow = true) :
    dumpPipelineEvents unit r =
      warningStr :: dumpPipelineEvents unit { r with overflow := false } := by
  have h1 : dumpRawEvents unit { r with overflow := false } =
      dumpRawEvents unit r := rfl
  have h2 : dumpCodeEvents unit { r with overflow := false } =
      dumpCodeEvents unit r := rfl
  have h3 : encodingEvents { r with overflow := false } = encodingEvents r :=
    rfl
  simp [dumpPipelineEvents, dumpInfoEvents, h, h1, h2, h3]

/-- Capture with the overflow flag set. -/
def overflowCapture : DecodeResults :=
  { rawbuf := fun i => [100, 200].getD i 0, rawlen := 2, overflow := true,
    value := 0, bits := 0, decode_type := DecodeType.UNKNOWN, address := 0,
    command := 0, isRepeat := false }

/-- C7 witness on a concrete overflowed capture. -/
theorem overflow_warning_first_witness :
    overflowCapture.overflow = true ∧
      dumpPipelineEvents 1 overflowCapture =
        warningStr ::
          dumpPipelineEvents 1 { overflowCapture with overflow := false } :=
  ⟨rfl, overflow_warning_first 1 overflowCapture rfl⟩

lemma fmt6_ne (n : Nat) (t : String) (c : Char) (hct : c ∈ t.data)
    (hc1 : c ≠ ' ') (hc2 : c ∉ hexChars) : fmt6 n ≠ t := by
  intro h
  have hm : c ∈ (fmt6 n).data := by rw [h]; exact hct
  rcases fmt6_chars n c hm with hx | hx
  · exact hc1 hx
  · exact hc2 hx

/-- C6: dumpRaw's loop emits its newline after an entry exactly when the
entry index is divisible by 8 (and then as the last event of that entry),
and the last entry (index `rawlen - 1`) is never followed by the comma
separator. -/
theorem dumpRaw_newline_and_no_trailing_comma (unit : Nat)
    (r : DecodeResults) (i : Nat) (h1 : 1 ≤ i) (h2 : i < r.rawlen) :
    (Ev.out "\n" ∈ dumpRawEntry unit r i ↔ i % 8 = 0) ∧
      (i % 8 = 0 → (dumpRawEntry unit r i).getLast? = some (Ev.out "\n")) ∧
      (i = r.rawlen - 1 → Ev.out ", " ∉ dumpRawEntry unit r i) := by
  have hF1 : fmt6 (toMicroseconds (r.rawbuf i) unit) ≠ "\n" :=
    fmt6_ne _ _ (Char.ofNat 10) (by decide) (by decide) (by decide)
  have hF2 : fmt6 (toMicroseconds (r.rawbuf i) unit) ≠ ", " :=
    fmt6_ne _ _ ',' (by decide) (by decide) (by decide)
  refine ⟨⟨?_, ?_⟩, ?_, ?_⟩
  · intro hm
    by_contra h8
    by_cases hy : i % 100 = 0 <;> by_cases hc : i < r.rawlen - 1 <;>
      by_cases hp : i % 2 = 0 <;>
      simp [dumpRawEntry, hy, hc, hp, h8] at hm <;>
      first
        | exact hF1 hm
        | exact hF1 hm.symm
  · intro h8
    simp [dumpRawEntry, h8]
  · intro h8
    simp only [dumpRawEntry, if_pos h8]
    exact List.getLast?_concat _
  · intro hlast hm
    have hc : ¬ i < r.rawlen - 1 := by omega
    by_cases hy : i % 100 = 0 <;> by_cases hp : i % 2 = 0 <;>
      by_cases h8 : i % 8 = 0 <;>
      simp [dumpRawEntry, hy, hp, h8, hc] at hm <;>
      first
        | exact hF2 hm
        | exact hF2 hm.symm

/-- C6 witness at index 8 (newline follows) and a capture of 10 entries. -/
def rawlenTenCapture : DecodeResults :=
  { rawbuf := fun _ => 100, rawlen := 10, overflow := false, value := 0,
    bits := 0, decode_type := DecodeType.UNKNOWN, address := 0, command := 0,
    isRepeat := false }

/-- C6 witness: entry 8 of a 10-entry capture gets the newline; entry 8 is
not the last entry, and the conclusion holds as the theorem states it. -/
theorem dumpRaw_newline_and_no_trailing_comma_witness :
    (1 ≤ 8 ∧ 8 < rawlenTenCapture.rawlen) ∧
      ((Ev.out "\n" ∈ dumpRawEntry 1 rawlenTenCapture 8 ↔ 8 % 8 = 0) ∧
        (8 % 8 = 0 →
          (dumpRawEntry 1 rawlenTenCapture 8).getLast? = some (Ev.out "\n")) ∧
        (8 = rawlenTenCapture.rawlen - 1 →
          Ev.out ", " ∉ dumpRawEntry 1 rawlenTenCapture 8)) :=
  ⟨⟨by norm_num, by decide⟩,
   dumpRaw_newline_and_no_trailing_comma 1 rawlenTenCapture 8 (by norm_num)
     (by decide)⟩

/-- C9: dumpRaw performs its cooperative yield exactly at the indices
divisible by 100, and there the yield is the first event of the entry,
before anything of that entry is printed; hence no more than 100 consecutive
entries are ever printed without a yield. -/
theorem dumpRaw_yield_cadence (unit : Nat) (r : DecodeResults) (i : Nat)
    (h1 : 1 ≤ i) (h2 : i < r.rawlen) :
    (Ev.yield ∈ dumpRawEntry unit r i ↔ i % 100 = 0) ∧
      (i % 100 = 0 → (dumpRawEntry unit r i).head? = some Ev.yield) := by
  refine ⟨⟨?_, ?_⟩, ?_⟩
  · intro hm
    by_contra hy
    by_cases hc : i < r.rawlen - 1 <;> by_cases hp : i % 2 = 0 <;>
      by_cases h8 : i % 8 = 0 <;>
      simp [dumpRawEntry, hy, hc, hp, h8] at hm
  · intro hy
    simp [dumpRawEntry, hy]
  · intro hy
    simp only [dumpRawEntry, if_pos hy]
    rfl

/-- Capture with 200 entries, long enough to contain yield index 100. -/
def rawlenHugeCapture : DecodeResults :=
  { rawbuf := fun _ => 7, rawlen := 200, overflow := false, value := 0,
    bits := 0, decode_type := DecodeType.UNKNOWN, address := 0, command := 0,
    isRepeat := false }

/-- Scenario A capture: ticks `[3846, 1392, 618]`, unit 1, decode absent
(modelled as decode_type UNKNOWN with value 0, the state the comment line of
dumpCode prints in that case). -/
def scenarioACapture : DecodeResults :=
  { rawbuf := fun i => [3846, 1392, 618].getD i 0, rawlen := 3,
    overflow := false, value := 0, bits := 0,
    decode_type := DecodeType.UNKNOWN, address := 0, command := 0,
    isRepeat := false }

lemma durEvents_1392 : durEvents 1392 = [decStr 1392] := by
  rw [durEvents_eq]
  norm_num

lemma durEvents_618 : durEvents 618 = [decStr 618] := by
  rw [durEvents_eq]
  norm_num

lemma dumpCode_scenarioA_eval :
    dumpCodeStr 1 scenarioACapture =
      "uint16_t rawData[2] = \x7b1392, 618 \x7d;  // UNKNOWN 0000000000000000\n" := by
  have hfm : (List.range' 1 2).flatMap (dumpCodeEntry 1 scenarioACapture) =
      [decStr 1392, ", ", decStr 618, " "] := by
    rw [show (List.range' 1 2) = [1, 2] from rfl, List.flatMap_cons,
      List.flatMap_cons, List.flatMap_nil,
      show dumpCodeEntry 1 scenarioACapture 1 =
        durEvents 1392 ++ [", "] ++ [] from rfl,
      show dumpCodeEntry 1 scenarioACapture 2 =
        durEvents 618 ++ [] ++ [" "] from rfl,
      durEvents_1392, durEvents_618]
    simp
  rw [dumpCodeStr]
  show String.join
      (["uint16_t ", "rawData[", decStr 2, "] = \x7b"]
        ++ (List.range' 1 2).flatMap (dumpCodeEntry 1 scenarioACapture)
        ++ ["\x7d;", "  // "] ++ ["UNKNOWN"]
        ++ [" ", serialPrintUint64 0, "\n"]
        ++ []) = _
  rw [hfm]
  rfl

/-- C4 (amended): on Scenario A the literal formatter emits exactly
`uint16_t rawData[2] = \x7b1392, 618 \x7d;  // UNKNOWN 0000000000000000` and a
newline, with no address/command/data trailer: there is an extra space after
`618` (the source prints one extra space after every even-indexed entry,
including a final one), and the comment's value has no `0x` prefix and no
trailing semicolon. -/
theorem dumpCode_scenarioA_output :
    dumpCodeStr 1 scenarioACapture =
      "uint16_t rawData[2] = \x7b1392, 618 \x7d;  // UNKNOWN 0000000000000000\n" :=
  dumpCode_scenarioA_eval

/-- C4 counterexample: the output on Scenario A is not the claimed text
`uint16_t rawData[2] = \x7b1392, 618\x7d;  // UNKNOWN 0x0000000000000000;`
(neither with nor without a trailing newline). -/
theorem dumpCode_scenarioA_not_claimed :
    dumpCodeStr 1 scenarioACapture ≠
        "uint16_t rawData[2] = \x7b1392, 618\x7d;  // UNKNOWN 0x0000000000000000;\n" ∧
      dumpCodeStr 1 scenarioACapture ≠
        "uint16_t rawData[2] = \x7b1392, 618\x7d;  // UNKNOWN 0x0000000000000000;" := by
  rw [dumpCode_scenarioA_eval]
  exact ⟨by decide, by decide⟩

lemma durEvents_chars (d : Nat) :
    ∀ s ∈ durEvents d, ∀ c ∈ s.data, c ∈ chunkChars := by
  induction d using Nat.strong_induction_on with
  | _ d ih =>
    rw [durEvents_eq]
    split
    · rename_i h
      intro s hs
      rcases List.mem_cons.mp hs with h1 | h1
      · subst h1
        decide
      · exact ih (d - 65535) (by omega) s h1
    · intro s hs
      rcases List.mem_cons.mp hs with h1 | h1
      · subst h1
        intro c hc
        exact List.mem_append_left _ (decStr_chars d c hc)
      · simp at h1

lemma protocolName_no_u (ty : DecodeType) : 'u' ∉ (protocolName ty).data := by
  cases ty <;> decide

lemma mem_ite_singleton {a x : String} {c : Prop} [Decidable c]
    (h : a ∈ if c then [x] else ([] : List String)) : a = x := by
  split at h
  · simpa using h
  · simp at h

/-- Every emitted string that contains a lowercase `u`, other than the
`"uint16_t "` keyword of the declaration header, comes from the trailer:
everything else dumpCode prints is digit/hex/separator material or a
protocol name, none of which contain a `u`. -/
lemma u_event_in_trailer (unit : Nat) (r : DecodeResults) (t : String)
    (hu : 'u' ∈ t.data) (h1 : t ≠ "uint16_t ")
    (hmem : t ∈ dumpCodeEvents unit r) : t ∈ dumpCodeTrailer r := by
  have hdec : ∀ n : Nat, t ≠ decStr n := by
    intro n h
    rw [h] at hu
    exact absurd (decStr_chars _ _ hu) (by decide)
  have hsp : t ≠ serialPrintUint64 r.value := by
    intro h
    rw [h] at hu
    exact absurd (serialPrintUint64_chars _ _ hu) (by decide)
  have hentry : ∀ i, t ∉ dumpCodeEntry unit r i := by
    intro i hin
    rcases List.mem_append.mp hin with hin1 | hin1
    · rcases List.mem_append.mp hin1 with hd | hd
      · exact absurd (durEvents_chars _ _ hd _ hu) (by decide)
      · rw [mem_ite_singleton hd] at hu
        exact absurd hu (by decide)
    · rw [mem_ite_singleton hin1] at hu
      exact absurd hu (by decide)
  have hpn : t ≠ protocolName r.decode_type := by
    intro h
    rw [h] at hu
    exact absurd hu (protocolName_no_u _)
  by_cases hrep : r.isRepeat <;>
    simp only [dumpCodeEvents, encodingEvents, hrep, if_true, if_false,
      Bool.false_eq_true, List.mem_append, List.mem_cons,
      List.not_mem_nil, or_false, false_or, List.mem_flatMap,
      List.mem_singleton] at hmem
  · rcases hmem with
      (((((h | h | h | h) | ⟨i, hi, hin⟩) | h | h) | h | h) | h | h | h) |
        hmem <;>
      first
        | exact absurd h h1
        | exact hmem
        | exact absurd h (hdec _)
        | exact absurd h hsp
        | exact absurd h hpn
        | exact absurd hin (hentry i)
        | (subst h; exact absurd hu (by decide))
  · rcases hmem with
      ((((((h | h | h | h) | ⟨i, hi, hin⟩) | h | h) | h) | h | h | h) |
        hmem) <;>
      first
        | exact absurd h h1
        | exact hmem
        | exact absurd h (hdec _)
        | exact absurd h hsp
        | exact absurd h hpn
        | exact absurd hin (hentry i)
        | (subst h; exact absurd hu (by decide))

/-- C5: for a capture with a known (non-UNKNOWN) decode, dumpCode emits the
`uint32_t address = 0x...;` and `uint32_t command = 0x...;` declarations if
and only if the address or the command is nonzero (both suppressed when both
are zero), and always emits the `uint64_t data = 0x...;` declaration. -/
theorem dumpCode_trailer_decls (unit : Nat) (r : DecodeResults)
    (h : r.decode_type ≠ DecodeType.UNKNOWN) :
    (("uint32_t address = 0x" ∈ dumpCodeEvents unit r) ↔
        (0 < r.address ∨ 0 < r.command)) ∧
      (("uint32_t command = 0x" ∈ dumpCodeEvents unit r) ↔
        (0 < r.address ∨ 0 < r.command)) ∧
      "uint64_t data = 0x" ∈ dumpCodeEvents unit r := by
  have hin : ∀ t : String, t ∈ dumpCodeTrailer r → t ∈ dumpCodeEvents unit r := by
    intro t ht
    simp only [dumpCodeEvents, List.mem_append]
    exact Or.inr ht
  refine ⟨⟨?_, ?_⟩, ⟨?_, ?_⟩, ?_⟩
  · intro hm
    have ht := u_event_in_trailer unit r _ (by decide) (by decide) hm
    by_contra hc
    simp only [dumpCodeTrailer, if_neg h, if_neg hc, List.nil_append,
      List.mem_cons, List.not_mem_nil, or_false] at ht
    rcases ht with h2 | h2 | h2
    · exact absurd h2 (by decide)
    · have hu : 'u' ∈ (serialPrintUint64 r.value).data := by
        rw [← h2]; decide
      exact absurd (serialPrintUint64_chars _ _ hu) (by decide)
    · exact absurd h2 (by decide)
  · intro hc
    refine hin _ ?_
    simp only [dumpCodeTrailer, if_neg h, if_pos hc]
    simp
  · intro hm
    have ht := u_event_in_trailer unit r _ (by decide) (by decide) hm
    by_contra hc
    simp only [dumpCodeTrailer, if_neg h, if_neg hc, List.nil_append,
      List.mem_cons, List.not_mem_nil, or_false] at ht
    rcases ht with h2 | h2 | h2
    · exact absurd h2 (by decide)
    · have hu : 'u' ∈ (serialPrintUint64 r.value).data := by
        rw [← h2]; decide
      exact absurd (serialPrintUint64_chars _ _ hu) (by decide)
    · exact absurd h2 (by decide)
  · intro hc
    refine hin _ ?_
    simp only [dumpCodeTrailer, if_neg h, if_pos hc]
    simp
  · refine hin _ ?_
    simp only [dumpCodeTrailer, if_neg h]
    by_cases hc : 0 < r.address ∨ 0 < r.command <;> simp [hc]

/-- Scenario C capture: decode YAMATO with value 1, address 0, command 0. -/
def scenarioCCapture : DecodeResults :=
  { rawbuf := fun i => [3846, 1392, 618].getD i 0, rawlen := 3,
    overflow := false, value := 1, bits := 1,
    decode_type := DecodeType.YAMATO, address := 0, command := 0,
    isRepeat := false }

/-- C5 witness on Scenario C: address and command are both zero, so the
address declaration is absent while the data declaration is present. -/
theorem dumpCode_trailer_decls_witness :
    scenarioCCapture.decode_type ≠ DecodeType.UNKNOWN ∧
      "uint32_t address = 0x" ∉ dumpCodeEvents 1 scenarioCCapture ∧
      "uint64_t data = 0x" ∈ dumpCodeEvents 1 scenarioCCapture := by
  have h := dumpCode_trailer_decls 1 scenarioCCapture (by decide)
  exact ⟨by decide, fun hm => absurd (h.1.mp hm) (by decide), h.2.2⟩

/-- C9 witness: at index 100 of a 200-entry capture the yield happens and is
the first event of the entry. -/
theorem dumpRaw_yield_cadence_witness :
    (1 ≤ 100 ∧ 100 < rawlenHugeCapture.rawlen) ∧
      ((Ev.yield ∈ dumpRawEntry 1 rawlenHugeCapture 100 ↔ 100 % 100 = 0) ∧
        (100 % 100 = 0 →
          (dumpRawEntry 1 rawlenHugeCapture 100).head? = some Ev.yield)) :=
  ⟨⟨by norm_num, by decide⟩,
   dumpRaw_yield_cadence 1 rawlenHugeCapture 100 (by norm_num) (by decide)⟩
